import Mathlib

/-!
Verification of the wash kubernetes volume / command / exec core.

Shallow embedding of:
  * `src/unnamed/part_000` (package kubernetes, `pvc`): `waitForPod`,
    `cachedAttributes`, `cachedContent`, `Find`, `List`, `Open`, `createPod`;
  * `src/plugin/internal/command.go`: `Start`, `Run`, `Wait`, `Terminate`,
    the context-cancellation watcher and its SIGTERM/SIGKILL escalation;
  * `src/unnamed/part_001` (package kubernetes, `pod`): `Exec` and its
    exit-code callback.

External collaborators (the kubernetes client, the `datastore` cache and
lock table, `plugin.StatParseAll`) are not part of the source tree; calls
into them are modelled as environment-provided answers, and where their
semantics matters it is taken from the specification (marked
`Modelled from the spec:` on the definition).
-/

namespace Wash

/-- Go `error` values that the volume code constructs or compares.
`podTerminated` is the `errPodTerminated` sentinel; `errMsg s` is
`errors.New(s)` (in particular `errors.New(string(logBytes))`);
the remaining constructors model the distinguishable failures produced by
`waitForPod` and by collaborator calls. -/
inductive GoErr where
  | podTerminated
  | channelError (pid : String)
  | watchError (pid : String)
  | timedOut (pid : String)
  | errMsg (s : String)
  | decodeError
  deriving DecidableEq, Repr

/-- Modelled from the spec: the parts of `plugin.Attributes` the volume code
inspects (`attr.Mode.IsDir()` and the size/metadata payload); the `plugin`
package is not under the source tree. -/
structure Attributes where
  isDir : Bool
  size : Nat
  deriving DecidableEq, Repr

/-- Model of Go `map[string]plugin.Attributes` as an association list; the
list order stands for Go's (environment-chosen) map iteration order. -/
abbrev AttrMap := List (String × Attributes)

/-- Model of `map[string]map[string]plugin.Attributes`, the result of
`plugin.StatParseAll`: directory path suffix to attribute map. -/
abbrev AttrsTable := List (String × AttrMap)

/-- A serialized cache entry. `attrs m` is the gob encoding of an attribute
map (what `cachedAttributes` stores via `SetAny`); `raw bits` is a raw byte
string (what `cachedContent` stores via `SetSlow`); `corrupt` is a blob on
which gob decoding fails. -/
inductive Blob where
  | attrs (m : AttrMap)
  | raw (bits : String)
  | corrupt
  deriving DecidableEq, Repr

/-- Modelled from the spec: the `datastore` cache (not under the source
tree) is a key-addressed store of serialized entries; `Get` is a
non-blocking lookup. Represented as an association list, newest entry
first. -/
abbrev Cache := List (String × Blob)

def cacheGet (c : Cache) (key : String) : Option Blob :=
  List.lookup key c

def cacheSet (c : Cache) (key : String) (b : Blob) : Cache :=
  (key, b) :: c

/-- Pod lifecycle phases (corev1.PodPhase) as read by `waitForPod`. -/
inductive PodPhase where
  | pending
  | running
  | succeeded
  | failed
  | unknown
  deriving DecidableEq, Repr

/-- Watch event types (k8s.io/apimachinery watch.EventType) that
`waitForPod` switches on. -/
inductive WatchEventType where
  | added
  | modified
  | deleted
  | error
  deriving DecidableEq, Repr

/-- One event from the watch result channel: its type and the phase of the
pod object it carries. -/
structure WatchEvent where
  type : WatchEventType
  phase : PodPhase
  deriving DecidableEq, Repr

/-- One observation of the `select` in `waitForPod`'s loop: an event
arrives on the channel, the channel is closed (`!ok`), or 30 seconds pass
with no event (`time.After` fires). -/
inductive StreamItem where
  | ev (e : WatchEvent)
  | closed
  | timeout
  deriving DecidableEq, Repr

/-- The event loop of `waitForPod` (part_000 lines 137-160): consume items
until a terminal outcome. `Modified`/`Succeeded` returns nil;
`Modified`/`Failed` returns `errPodTerminated`; `Modified`/`Unknown` is
logged and the loop continues (as for `Pending`/`Running`); an `Error`
event returns a pod-errored error; a closed channel returns a channel
error; a 30-second gap returns a timeout error. An exhausted item list
means no further event ever arrives, so the timeout fires. -/
def waitForPodLoop (pid : String) : List StreamItem → Option GoErr
  | [] => some (.timedOut pid)
  | .timeout :: _ => some (.timedOut pid)
  | .closed :: _ => some (.channelError pid)
  | .ev e :: rest =>
    match e.type with
    | .modified =>
      match e.phase with
      | .succeeded => none
      | .failed => some .podTerminated
      | _ => waitForPodLoop pid rest
    | .error => some (.watchError pid)
    | _ => waitForPodLoop pid rest

/-- Model of `waitForPod` (part_000 lines 129-161): if `podi.Watch` fails its error
is returned at once, otherwise the event loop runs. -/
def waitForPod (pid : String) (watchErr : Option GoErr) (stream : List StreamItem) : Option GoErr :=
  match watchErr with
  | some e => some e
  | none => waitForPodLoop pid stream

/-- The environment of one `cachedAttributes`/`cachedContent` call: the
answers of the kubernetes client and of the collaborator packages to each
call the code makes. `setAnyErr` gives the result of `cache.SetAny` /
`cache.SetSlow` per key (Modelled from the spec: cache writes are
best-effort and can fail; a failed write does not store). -/
structure RunEnv where
  createResult : Except GoErr String
  watchErr : Option GoErr
  stream : List StreamItem
  logsOpenErr : Option GoErr
  logsBytes : Except GoErr String
  statParse : Except GoErr AttrsTable
  setAnyErr : String → Option GoErr

/-- The `pvc` struct (part_000 lines 25-32) minus its mutex, which is
modelled separately as a lock in the concurrency section. `rtName` stands
for `resourcetype.client.Name()`, the only part of the embedded
`resourcetype` that the functions below read. -/
structure Pvc where
  rtName : String
  name : String
  ns : String
  path : String
  attr : Attributes
  deriving DecidableEq, Repr

/-- Transcription of `pvc.baseID` (part_000 lines 74-76). -/
def Pvc.baseID (cli : Pvc) : String :=
  cli.rtName ++ "/" ++ cli.ns ++ "/pvc/" ++ cli.name

/-- Transcription of `pvc.String` (part_000 lines 80-82). -/
def Pvc.str (cli : Pvc) : String :=
  cli.baseID ++ cli.path

/-- The cache key used by `cachedAttributes` (part_000 line 171). -/
def Pvc.listKey (cli : Pvc) : String :=
  cli.str ++ "/list"

/-- The cache key used by `cachedContent` (part_000 line 229). -/
def Pvc.contentKey (cli : Pvc) : String :=
  cli.str ++ "/content"

/-- Gob decode of a cached listing entry (part_000 lines 176-178): an
`attrs` blob decodes to its map; any other blob fails to decode and the
decode error is produced together with a nil map. -/
def decodeAttrBlob : Blob → AttrMap × Option GoErr
  | .attrs m => (m, none)
  | _ => ([], some .decodeError)

/-- The `SetAny` loop of `cachedAttributes` (part_000 lines 218-223):
for every directory in the parsed table, try to store its attribute map
under `baseID ++ dir ++ "/list"`. The Go code reassigns `err` on every
iteration (`if err = cli.cache.SetAny(...); err != nil {...}`), merely
logging failures, so the value left in `err` after the loop is the result
of the last iteration (`acc` threads that value; it starts as the nil
left by the `StatParseAll` error check). -/
def setAllAttrs (env : RunEnv) (base : String) : AttrsTable → Cache → Option GoErr → Cache × Option GoErr
  | [], c, acc => (c, acc)
  | (dir, amap) :: rest, c, _ =>
    let key := base ++ dir ++ "/list"
    let res := env.setAnyErr key
    let c2 := if res.isNone then cacheSet c key (.attrs amap) else c
    setAllAttrs env base rest c2 res

/-- The observable outcome of one `cachedAttributes` call: the two Go
return values (`attrs` models the returned map, nil as `[]`; `err` the
returned error), the cache afterwards, how many pods the call created and
deleted, and whether `cli.updated = time.Now()` ran. `updated` is a field
of the embedded `*resourcetype` (the `pvc` struct declares no `updated`
field, so the Go selector promotes), hence it is part of the shared
resourcetype state and not a field of the receiver entry. -/
structure AttrsRun where
  attrs : AttrMap
  err : Option GoErr
  cache : Cache
  podsCreated : Nat
  podsDeleted : Nat
  rtUpdated : Bool
  self : Pvc

/-- An exit of the body of `cachedAttributes` before any pod exists.
`self` is the receiver struct as left by the call: the source assigns no
field of the `pvc` itself on any path (its one assignment through the
receiver, `cli.updated = time.Now()`, promotes to the embedded
`*resourcetype` because `pvc` declares no `updated` field; it is recorded
in `rtUpdated`). -/
def AttrsRun.pre (cli : Pvc) (c : Cache) (m : AttrMap) (e : Option GoErr) : AttrsRun :=
  { attrs := m, err := e, cache := c, podsCreated := 0, podsDeleted := 0, rtUpdated := false
    self := cli }

/-- Transcription of `cachedAttributes` (part_000 lines 163-226), one call in isolation
(the lock acquisition on lines 164-169 serializes whole calls and is
modelled in the concurrency section below).
Control flow transcribed from the source: cache `Get` hit decodes the
entry and returns the decode result and its error; on a miss a pod is
created (`createPod`, whose `Create` error aborts with no pod); from then
on `defer podi.Delete` runs on every exit path, counted in `podsDeleted`;
`waitForPod` errors other than `errPodTerminated` abort; `GetLogs.Stream`
errors abort; on `errPodTerminated` the log bytes are read and returned
as `errors.New(string(bytes))`; otherwise `StatParseAll` output is stored
per directory (`setAllAttrs`), `cli.updated` is set, and the call returns
`attrs[cli.path]` together with the error value left by the store loop. -/
def cachedAttributes (cli : Pvc) (env : RunEnv) (c : Cache) : AttrsRun :=
  match cacheGet c cli.listKey with
  | some blob =>
    let dec := decodeAttrBlob blob
    AttrsRun.pre cli c dec.1 dec.2
  | none =>
    match env.createResult with
    | .error e => AttrsRun.pre cli c [] (some e)
    | .ok pid =>
      let werr := waitForPod pid env.watchErr env.stream
      let body :=
        if werr.isSome ∧ werr ≠ some .podTerminated then
          AttrsRun.pre cli c [] werr
        else
          match env.logsOpenErr with
          | some le => AttrsRun.pre cli c [] (some le)
          | none =>
            if werr = some .podTerminated then
              match env.logsBytes with
              | .error re => AttrsRun.pre cli c [] (some re)
              | .ok bits => AttrsRun.pre cli c [] (some (.errMsg bits))
            else
              match env.statParse with
              | .error pe => AttrsRun.pre cli c [] (some pe)
              | .ok table =>
                let stored := setAllAttrs env cli.baseID table c none
                { attrs := (table.lookup cli.path).getD []
                  err := stored.2
                  cache := stored.1
                  podsCreated := 0
                  podsDeleted := 0
                  rtUpdated := true
                  self := cli }
      { body with podsCreated := 1, podsDeleted := body.podsDeleted + 1 }

/-- The observable outcome of one `cachedContent` call: the returned
content (`bytes.NewReader` over the entry or the read bytes), the returned
error, the cache afterwards, pod creation/deletion counts and the
resourcetype `updated` write, as in `AttrsRun`. -/
structure ContentRun where
  content : Option Blob
  err : Option GoErr
  cache : Cache
  podsCreated : Nat
  podsDeleted : Nat
  rtUpdated : Bool
  self : Pvc

/-- An exit of the body of `cachedContent` before any pod exists; `self`
is the receiver struct as left by the call, as in `AttrsRun.pre`. -/
def ContentRun.pre (cli : Pvc) (c : Cache) (v : Option Blob) (e : Option GoErr) : ContentRun :=
  { content := v, err := e, cache := c, podsCreated := 0, podsDeleted := 0, rtUpdated := false
    self := cli }

/-- Transcription of `cachedContent` (part_000 lines 228-275), one call in isolation.
A cache `Get` hit returns the stored entry bytes directly (no decoding).
On a miss a pod running `cat mountpoint+path` is created; `defer
podi.Delete` runs on every later exit path; `waitForPod` errors other
than `errPodTerminated` abort; the log stream is opened and read fully in
both remaining cases; if the pod failed the bytes are returned as
`errors.New(string(bits))`, otherwise `cli.updated` is set, the bytes are
stored under the content key with `SetSlow` (result discarded; a failed
write stores nothing) and the bytes are returned. -/
def cachedContent (cli : Pvc) (env : RunEnv) (c : Cache) : ContentRun :=
  match cacheGet c cli.contentKey with
  | some entry => ContentRun.pre cli c (some entry) none
  | none =>
    match env.createResult with
    | .error e => ContentRun.pre cli c none (some e)
    | .ok pid =>
      let werr := waitForPod pid env.watchErr env.stream
      let body :=
        if werr.isSome ∧ werr ≠ some .podTerminated then
          ContentRun.pre cli c none werr
        else
          match env.logsOpenErr with
          | some le => ContentRun.pre cli c none (some le)
          | none =>
            match env.logsBytes with
            | .error re => ContentRun.pre cli c none (some re)
            | .ok bits =>
              if werr = some .podTerminated then
                ContentRun.pre cli c none (some (.errMsg bits))
              else
                let c2 :=
                  if (env.setAnyErr cli.contentKey).isNone then
                    cacheSet c cli.contentKey (.raw bits)
                  else c
                { content := some (.raw bits)
                  err := none
                  cache := c2
                  podsCreated := 0
                  podsDeleted := 0
                  rtUpdated := true
                  self := cli }
      { body with podsCreated := 1, podsDeleted := body.podsDeleted + 1 }

/-- The result of `pvc.Find` (part_000 lines 39-54): a child node wrapped
as a directory or file, the `plugin.ENOENT` sentinel, or the error from
`cachedAttributes`. -/
inductive FindResult where
  | node (p : Pvc) (isDir : Bool)
  | enoent
  | err (e : GoErr)
  deriving DecidableEq, Repr

/-- Transcription of `pvc.Find` (part_000 lines 39-54): list the attributes, and when
`name` is present build a fresh `pvc` value with the extended path and the
child's attributes (`&pvc{cli.resourcetype, cli.name, cli.ns,
cli.path + "/" + name, attr, sync.Mutex{}}`), wrapped by `NewDir` or
`NewFile` according to `attr.Mode.IsDir()`. -/
def Pvc.find (cli : Pvc) (env : RunEnv) (c : Cache) (nm : String) : FindResult :=
  let r := cachedAttributes cli env c
  match r.err with
  | some e => .err e
  | none =>
    match r.attrs.lookup nm with
    | some attr => .node { cli with path := cli.path ++ "/" ++ nm, attr := attr } attr.isDir
    | none => .enoent

/-- Transcription of `pvc.List` (part_000 lines 56-72): one fresh `pvc` value per entry of
the cached attribute map, each with the extended path and that entry's
attributes. -/
def Pvc.list (cli : Pvc) (env : RunEnv) (c : Cache) : Except GoErr (List (Pvc × Bool)) :=
  let r := cachedAttributes cli env c
  match r.err with
  | some e => .error e
  | none =>
    .ok (r.attrs.map fun ea =>
      ({ cli with path := cli.path ++ "/" ++ ea.1, attr := ea.2 }, ea.2.isDir))

/-! ## ManagedProcess: `src/plugin/internal/command.go` -/

/-- The environment of one managed command: the answers of the OS process
primitives. `startErr` is the result of `exec.Cmd#Start`; `pgidOk`/`pgid`
the result of `syscall.Getpgid` at start time; `waitErr` the result of the
single underlying `exec.Cmd#Wait` (the process's exit result). -/
structure CmdEnv where
  startErr : Option GoErr
  pgidOk : Bool
  pgid : Nat
  waitErr : Option GoErr

/-- The mutable fields of the `command` struct that `Start`/`Run`/`Wait`
touch: whether the process was started, the recorded process-group id
(`none` models the `-1` sentinel), the single-shot wait gate
(`waitOnce`/`waitDoneCh` as `waitDone`, `waitResult` as the cached
result), and a count of underlying `exec.Cmd#Wait` invocations. -/
structure CmdState where
  started : Bool
  pgid : Option Nat
  waitDone : Bool
  waitResult : Option GoErr
  underlyingWaits : Nat
  deriving DecidableEq, Repr

/-- A freshly constructed command (`NewCommand`, command.go lines 50-65):
not started, `pgid = -1`, wait gate untouched. -/
def CmdState.fresh : CmdState :=
  { started := false, pgid := none, waitDone := false, waitResult := none, underlyingWaits := 0 }

/-- Transcription of `command.Wait` (command.go lines 154-163): under `waitOnce`, the first
call performs the underlying `exec.Cmd#Wait`, caches its result in
`waitResult` and closes `waitDoneCh`; every call returns `waitResult`.
sync.Once runs the body to completion before any caller returns, so
concurrent callers are linearized; the calls are modelled in that
serialized order. -/
def waitCmd (env : CmdEnv) (s : CmdState) : Option GoErr × CmdState :=
  if s.waitDone then
    (s.waitResult, s)
  else
    let s2 := { s with waitDone := true
                       waitResult := env.waitErr
                       underlyingWaits := s.underlyingWaits + 1 }
    (env.waitErr, s2)

/-- Transcription of `command.Start` (command.go lines 68-116): `exec.Cmd#Start`, returning
its error on failure; on success record the pgid when `Getpgid` succeeds
(a failure is logged only) and spawn the cancellation watcher (modelled
separately as `watcherTrace`). -/
def startCmd (env : CmdEnv) (s : CmdState) : Option GoErr × CmdState :=
  match env.startErr with
  | some e => (some e, s)
  | none =>
    (none, { s with started := true, pgid := if env.pgidOk then some env.pgid else none })

/-- Transcription of `command.Run` (command.go lines 133-139), from the source
body: `if err := cmd.Start(); err != nil { return err }; return
cmd.Wait()`. -/
def runCmd (env : CmdEnv) (s : CmdState) : Option GoErr × CmdState :=
  match startCmd env s with
  | (some e, s2) => (some e, s2)
  | (none, s2) => waitCmd env s2

/-- The composition `Start` followed by `Wait`, written from the claimed
contract (the spec-side definition for the refinement claim): if `Start`
errors, return that error without waiting; otherwise return `Wait`'s
result. -/
def runCmdSpec (env : CmdEnv) (s : CmdState) : Option GoErr × CmdState :=
  let st := startCmd env s
  if st.1.isSome then st else waitCmd env st.2

/-- Runs `k` successive `Wait()` calls, collecting each call's return value.
Concurrent callers of `Wait` are linearized by `sync.Once` (and by the
atomicity of reading the cached result after `waitOnce.Do` returns), so a
list of serialized calls models any number of callers. -/
def waitCalls (env : CmdEnv) : Nat → CmdState → List (Option GoErr) × CmdState
  | 0, s => ([], s)
  | k + 1, s =>
    let r := waitCmd env s
    let rest := waitCalls env k r.2
    (r.1 :: rest.1, rest.2)

/-- What fired first for the watcher goroutine's `select` (command.go
lines 84-91): the process exited on its own (`waitDoneCh` closed), an
explicit `Terminate()` (`terminateCh` closed), or cancellation of the
associated context. -/
inductive Trigger where
  | waitDone
  | terminate
  | ctxCancel
  deriving DecidableEq, Repr

/-- The signal kinds the watcher can send. -/
inductive Sig where
  | sigterm
  | sigkill
  deriving DecidableEq, Repr

/-- The environment of the watcher goroutine: which select branch fired,
whether `cmd.signal(SIGTERM)` succeeded (this also covers the lazy pgid
re-resolution inside `signal`: a failure to resolve makes `signal` return
an error), whether the process had exited (`waitDoneCh` closed) when the
five-second `time.AfterFunc` fired, and whether `cmd.signal(SIGKILL)`
succeeded. -/
structure SigEnv where
  trigger : Trigger
  sigtermOk : Bool
  exitedBeforeGrace : Bool
  sigkillOk : Bool

/-- The sequence of signal-delivery attempts made by the watcher goroutine
spawned in `Start` (command.go lines 82-114) together with each attempt's
success, transcribed from the source: on natural exit, nothing; otherwise
`signal(SIGTERM)`; only when that succeeded, a five-second `AfterFunc` is
armed which, if the process has not exited by then, sends
`signal(SIGKILL)` (failures of either delivery are logged only). -/
def watcherTrace (env : SigEnv) : List (Sig × Bool) :=
  match env.trigger with
  | .waitDone => []
  | _ =>
    if env.sigtermOk then
      if env.exitedBeforeGrace then
        [(.sigterm, true)]
      else
        [(.sigterm, true), (.sigkill, env.sigkillOk)]
    else
      [(.sigterm, false)]

/-! ## RemoteExecSession: `src/unnamed/part_001` `pod.Exec` -/

/-- The outcome of `executor.Stream` in the goroutine of `pod.Exec`
(part_001 lines 106-117): nil, a `k8exec.ExitError` carrying the remote
command's non-zero exit status, or any other stream failure. -/
inductive StreamErr where
  | exitError (status : Nat)
  | other (msg : String)
  deriving DecidableEq, Repr

/-- The observable outcome of the exec stream goroutine and of a later
`ExitCodeCB()` call: the error handed to `stdout.CloseWithError` /
`stderr.CloseWithError`, and the callback's two return values. -/
structure ExecOutcome where
  closeErr : Option StreamErr
  cbExit : Nat
  cbErr : Option StreamErr
  deriving DecidableEq, Repr

/-- The completion logic of `pod.Exec` (part_001 lines 105-122),
transcribed from the source: `exitcode` starts at 0; when the stream error
is a `k8exec.ExitError` the status is recorded in `exitcode` and `err` is
cleared; both output sinks are closed with the (possibly cleared) `err`;
`ExitCodeCB` is `func() (int, error) { return exitcode, nil }` — it
returns the recorded exit code and always a nil error. The callback is
invoked lazily after the stream finishes, so it reads the final values. -/
def execFinish (res : Option StreamErr) : ExecOutcome :=
  match res with
  | some (.exitError status) => { closeErr := none, cbExit := status, cbErr := none }
  | r => { closeErr := r, cbExit := 0, cbErr := none }

/-! ## Concurrency model of `cachedAttributes` callers sharing one key

`cachedAttributes` (part_000 lines 163-226) runs under the per-key locks
of `cli.cache.LocksForKeys` (Modelled from the spec: the `datastore` lock
table and store are not under the source tree; §4.1 gives a lazily
created mutual-exclusion handle per key, a non-blocking `Get` and a store
of the computed result). N callers with the same key acquire the same key
set in the same fixed order, so their critical sections are serialized by
the first lock of that order; the model uses that single lock. Each
thread runs the source's protocol: acquire the lock, `Get` the key,
on a hit decode and return, on a miss run the pod job (the compute
closure), store the result, return, releasing the lock at exit (the
deferred `Unlock`). -/

/-- Program counter of one `cachedAttributes` caller. `finished v` holds
the value the call returns while the deferred `Unlock` is still pending;
`released v` is after the unlock. -/
inductive KPc where
  | start
  | acquired
  | computing
  | storing
  | finished (v : AttrMap)
  | released (v : AttrMap)
  deriving DecidableEq, Repr

/-- Whether a thread at this pc is inside the critical section (holds the
per-key lock). -/
def KPc.isActive : KPc → Bool
  | .start => false
  | .released _ => false
  | _ => true

/-- Shared state of `n` concurrent `cachedAttributes` callers for one key:
the lock holder, the cache entry for the key, each thread's pc, and how
many times the compute closure (the pod-creating job) has run. -/
structure KState (n : Nat) where
  lock : Option (Fin n)
  entry : Option AttrMap
  pc : Fin n → KPc
  computes : Nat

/-- Initial state: lock free, entry as given, all threads at `start`, no
computes. -/
def KState.init (n : Nat) (c0 : Option AttrMap) : KState n :=
  { lock := none, entry := c0, pc := fun _ => .start, computes := 0 }

/-- Interleaving semantics of the per-key protocol, `v0` being the value
the compute closure produces (all callers see the same backing volume, so
the closure is deterministic across them). `acquire` is `l.Lock()`:
it proceeds only when the lock is free. `checkHit`/`checkMiss` are the
`cache.Get` under the lock. `compute` runs the pod job. `store` is the
`SetAny` of the computed result under the key. `release` is the deferred
`Unlock`. -/
inductive KStep (n : Nat) (v0 : AttrMap) : KState n → KState n → Prop where
  | acquire (s : KState n) (t : Fin n) :
      s.pc t = .start → s.lock = none →
      KStep n v0 s { s with lock := some t, pc := Function.update s.pc t .acquired }
  | checkHit (s : KState n) (t : Fin n) (v : AttrMap) :
      s.pc t = .acquired → s.entry = some v →
      KStep n v0 s { s with pc := Function.update s.pc t (.finished v) }
  | checkMiss (s : KState n) (t : Fin n) :
      s.pc t = .acquired → s.entry = none →
      KStep n v0 s { s with pc := Function.update s.pc t .computing }
  | compute (s : KState n) (t : Fin n) :
      s.pc t = .computing →
      KStep n v0 s { s with pc := Function.update s.pc t .storing, computes := s.computes + 1 }
  | store (s : KState n) (t : Fin n) :
      s.pc t = .storing →
      KStep n v0 s { s with entry := some v0, pc := Function.update s.pc t (.finished v0) }
  | release (s : KState n) (t : Fin n) (v : AttrMap) :
      s.pc t = .finished v →
      KStep n v0 s { s with lock := none, pc := Function.update s.pc t (.released v) }

/-- States reachable from the initial state by interleaving the callers. -/
def KReach (n : Nat) (v0 : AttrMap) (c0 : Option AttrMap) (s : KState n) : Prop :=
  Relation.ReflTransGen (KStep n v0) (KState.init n c0) s

/-- Inductive invariant of the per-key protocol: the lock discipline
(every thread inside the critical section is the lock holder), the
compute count bound, which values the entry can hold, and which values
finished threads can have observed. -/
structure KInv (n : Nat) (v0 : AttrMap) (c0 : Option AttrMap) (s : KState n) : Prop where
  owner : ∀ t, (s.pc t).isActive = true → s.lock = some t
  computeBound : s.computes ≤ 1
  midCompute : ∀ t, s.pc t = .computing ∨ s.pc t = .storing → s.entry = none
  initPersist : ∀ w, c0 = some w → s.entry = some w
  entryVals : ∀ v, s.entry = some v → v = c0.getD v0
  oneWriter : s.computes = 1 → (∃ t, s.pc t = .storing) ∨ s.entry = some v0
  results : ∀ t v, s.pc t = .finished v ∨ s.pc t = .released v → v = c0.getD v0

/-! ## Concurrency model of two `Open` callers for the same file

`pvc.Open` (part_000 lines 119-123) takes `cli.mux`, the mutex stored in
the `pvc` struct value itself, and then runs `cachedContent`, which does
a `cache.Get` and on a miss creates a pod, reads its logs and stores the
bytes — with no per-key lock of its own (unlike `cachedAttributes`, it
never calls `LocksForKeys`). Every `Find`/`List` builds a fresh `pvc`
value with a fresh `sync.Mutex{}` (lines 46 and 64), so two callers that
obtained the same file through two separate lookups hold different
mutexes while sharing one cache key.

The model: two threads, thread `t` locking mutex `lockOf t` of a table of
two mutexes, a single shared cache entry for the content key, and a pod
counter. Scheduling is the only nondeterminism (each thread's own code is
deterministic), so a schedule — the list of which thread moves next — is
run by an executable stepper; a blocked thread does not move. -/

/-- Program counter of one `Open` caller. `locked`: holds its mutex, about
to `Get`. `running`: saw a miss and created the pod (the in-flight job).
`finished hit`: has its result, deferred unlock pending. `done hit`:
returned. -/
inductive OPc where
  | start
  | locked
  | running
  | finished (hit : Bool)
  | done (hit : Bool)
  deriving DecidableEq, Repr

/-- Shared state of the two `Open` callers: the two entry mutexes, the
cache entry under the shared content key, the number of pods created, and
both pcs. -/
structure OState where
  mux : Fin 2 → Bool
  entry : Option Blob
  jobs : Nat
  pc : Fin 2 → OPc

/-- One scheduling step of thread `t`: run the next atomic action of
`Open`/`cachedContent` for that thread, or nothing if it is blocked on
its mutex or already done. `lockOf t` names the mutex thread `t`'s entry
value carries; `bits` is the byte output of the `cat` pod (the same for
both threads — same file). The actions: acquire the mutex (`cli.mux.Lock`),
`cache.Get` (hit returns the entry, miss creates the pod and counts a
job), run the job to completion and store the bytes (`SetSlow`), release
the mutex (the deferred `Unlock`). -/
def ostep (lockOf : Fin 2 → Fin 2) (bits : String) (s : OState) (t : Fin 2) : OState :=
  match s.pc t with
  | .start =>
    if s.mux (lockOf t) then s
    else { s with mux := Function.update s.mux (lockOf t) true
                  pc := Function.update s.pc t .locked }
  | .locked =>
    match s.entry with
    | some _ => { s with pc := Function.update s.pc t (.finished true) }
    | none => { s with jobs := s.jobs + 1, pc := Function.update s.pc t .running }
  | .running =>
    { s with entry := some (.raw bits), pc := Function.update s.pc t (.finished false) }
  | .finished h =>
    { s with mux := Function.update s.mux (lockOf t) false
             pc := Function.update s.pc t (.done h) }
  | .done _ => s

/-- Run a schedule (the list of thread ids picked by the scheduler, in
order) from a state. -/
def orun (lockOf : Fin 2 → Fin 2) (bits : String) : List (Fin 2) → OState → OState
  | [], s => s
  | t :: rest, s => orun lockOf bits rest (ostep lockOf bits s t)

/-- Initial state: both mutexes free, entry as given, no jobs, both
threads at start. -/
def OState.init (e0 : Option Blob) : OState :=
  { mux := fun _ => false, entry := e0, jobs := 0, pc := fun _ => .start }

/-- Both callers went through the same entry value, hence the same mutex:
`lockOf` is constantly mutex 0. -/
def sharedLock : Fin 2 → Fin 2 := fun _ => 0

/-- Each caller went through its own entry value (two separate `Find`s of
the same file): thread `t` holds mutex `t`. -/
def ownLock : Fin 2 → Fin 2 := fun t => t

/-- Invariant for the shared-mutex instance: mutex-0 discipline (a thread
between `Lock` and `Unlock` is the unique holder), at most one job, and a
job in flight or a populated entry accounts for the job already counted. -/
structure OInv (bits : String) (s : OState) : Prop where
  held : ∀ t, (s.pc t = .locked ∨ s.pc t = .running ∨ ∃ h, s.pc t = .finished h) →
    s.mux 0 = true ∧ ∀ u, (s.pc u = .locked ∨ s.pc u = .running ∨ ∃ h, s.pc u = .finished h) → u = t
  jobsBound : s.jobs ≤ 1
  jobAccounted : s.jobs = 1 → (∃ t, s.pc t = .running) ∨ s.entry.isSome = true

/-! ## Concrete fixtures used by witnesses and counterexamples -/

/-- A file attribute record. -/
def attr0 : Attributes := { isDir := false, size := 4 }

/-- A directory attribute record. -/
def dirAttr : Attributes := { isDir := true, size := 0 }

/-- A parsed attribute map for the root of a volume: a directory and a
file. -/
def amap0 : AttrMap := [("logs", dirAttr), ("data", attr0)]

/-- A pvc entry for the root of volume `vol` in namespace `default`. -/
def cli0 : Pvc :=
  { rtName := "k8s", name := "vol", ns := "default", path := "", attr := dirAttr }

/-- A watch stream in which the pod is scheduled, runs and succeeds. -/
def streamOk : List StreamItem :=
  [.ev ⟨.added, .pending⟩, .ev ⟨.modified, .running⟩, .ev ⟨.modified, .succeeded⟩]

/-- A watch stream in which the pod runs and then fails. -/
def streamFail : List StreamItem :=
  [.ev ⟨.modified, .running⟩, .ev ⟨.modified, .failed⟩]

/-- An environment in which everything succeeds: the pod is created and
succeeds, its log output parses to `amap0` for the root directory, and
every cache write succeeds. -/
def envOk : RunEnv :=
  { createResult := .ok "wash1", watchErr := none, stream := streamOk,
    logsOpenErr := none, logsBytes := .ok "stat output",
    statParse := .ok [("", amap0)], setAnyErr := fun _ => none }

/-- As `envOk`, except every cache write fails. -/
def envSetFail : RunEnv :=
  { envOk with setAnyErr := fun _ => some (.errMsg "cache write failed") }

/-- An environment in which the pod is created and fails; its captured log
output is the remote command's own diagnostic. -/
def envPodFail : RunEnv :=
  { envOk with stream := streamFail, logsBytes := .ok "remote diagnostic" }

/-- A cache holding an entry under the root listing key of `cli0` that
fails to gob-decode. -/
def cacheCorrupt : Cache := [(cli0.listKey, .corrupt)]

/-- A five-step interleaving of the per-key protocol: thread 0 acquires
the lock, misses, computes, stores and releases. Intermediate states of
the run used to exhibit a concrete reachable final state. -/
def kTrace0 : KState 2 := KState.init 2 none

def kTrace1 : KState 2 :=
  { kTrace0 with lock := some 0, pc := Function.update kTrace0.pc 0 .acquired }

def kTrace2 : KState 2 :=
  { kTrace1 with pc := Function.update kTrace1.pc 0 .computing }

def kTrace3 : KState 2 :=
  { kTrace2 with pc := Function.update kTrace2.pc 0 .storing, computes := kTrace2.computes + 1 }

def kTrace4 : KState 2 :=
  { kTrace3 with entry := some amap0, pc := Function.update kTrace3.pc 0 (.finished amap0) }

def kTrace5 : KState 2 :=
  { kTrace4 with lock := none, pc := Function.update kTrace4.pc 0 (.released amap0) }

/-! ## Proofs -/

theorem kinv_init (n : Nat) (v0 : AttrMap) (c0 : Option AttrMap) :
    KInv n v0 c0 (KState.init n c0) := by
  constructor
  · intro t h
    simp [KState.init, KPc.isActive] at h
  · simp [KState.init]
  · intro t h
    rcases h with h | h <;> simp [KState.init] at h
  · intro w h
    simp [KState.init, h]
  · intro v h
    simp [KState.init] at h
    simp [h]
  · intro h
    simp [KState.init] at h
  · intro t v h
    rcases h with h | h <;> simp [KState.init] at h

theorem kinv_step (n : Nat) (v0 : AttrMap) (c0 : Option AttrMap) (s s2 : KState n)
    (hstep : KStep n v0 s s2) (hinv : KInv n v0 c0 s) : KInv n v0 c0 s2 := by
  obtain ⟨owner, computeBound, midCompute, initPersist, entryVals, oneWriter, results⟩ := hinv
  cases hstep with
  | acquire t hpc hlock =>
    constructor
    · intro u hu
      by_cases htu : u = t
      · simp [htu]
      · simp only [Function.update_noteq htu] at hu
        have := owner u hu
        rw [hlock] at this
        exact absurd this (by simp)
    · exact computeBound
    · intro u hu
      by_cases htu : u = t
      · subst htu
        simp [Function.update_same] at hu
      · simp only [Function.update_noteq htu] at hu
        exact midCompute u hu
    · exact initPersist
    · exact entryVals
    · intro h
      rcases oneWriter h with ⟨u, hu⟩ | h2
      · left
        refine ⟨u, ?_⟩
        by_cases htu : u = t
        · subst htu
          rw [hpc] at hu
          exact absurd hu (by simp)
        · simpa [Function.update_noteq htu] using hu
      · right; exact h2
    · intro u v hu
      by_cases htu : u = t
      · subst htu
        simp [Function.update_same] at hu
      · simp only [Function.update_noteq htu] at hu
        exact results u v hu
  | checkHit t v hpc hentry =>
    have hlock : s.lock = some t := owner t (by rw [hpc]; rfl)
    constructor
    · intro u hu
      by_cases htu : u = t
      · subst htu; exact hlock
      · simp only [Function.update_noteq htu] at hu
        exact owner u hu
    · exact computeBound
    · intro u hu
      by_cases htu : u = t
      · subst htu
        simp [Function.update_same] at hu
      · simp only [Function.update_noteq htu] at hu
        exact midCompute u hu
    · exact initPersist
    · exact entryVals
    · intro h
      rcases oneWriter h with ⟨u, hu⟩ | h2
      · left
        refine ⟨u, ?_⟩
        by_cases htu : u = t
        · subst htu
          rw [hpc] at hu
          exact absurd hu (by simp)
        · simpa [Function.update_noteq htu] using hu
      · right; exact h2
    · intro u w hu
      by_cases htu : u = t
      · subst htu
        simp only [Function.update_same] at hu
        rcases hu with h | h
        · injection h with h4
          subst h4
          exact entryVals _ hentry
        · exact absurd h (by simp)
      · simp only [Function.update_noteq htu] at hu
        exact results u w hu
  | checkMiss t hpc hentry =>
    have hlock : s.lock = some t := owner t (by rw [hpc]; rfl)
    constructor
    · intro u hu
      by_cases htu : u = t
      · subst htu; exact hlock
      · simp only [Function.update_noteq htu] at hu
        exact owner u hu
    · exact computeBound
    · intro u hu
      exact hentry
    · intro w hw
      have := initPersist w hw
      rw [hentry] at this
      exact absurd this (by simp)
    · intro v hv
      rw [hentry] at hv
      exact absurd hv (by simp)
    · intro h
      rcases oneWriter h with ⟨u, hu⟩ | h2
      · left
        refine ⟨u, ?_⟩
        by_cases htu : u = t
        · subst htu
          rw [hpc] at hu
          exact absurd hu (by simp)
        · simpa [Function.update_noteq htu] using hu
      · rw [hentry] at h2
        exact absurd h2 (by simp)
    · intro u w hu
      by_cases htu : u = t
      · subst htu
        simp [Function.update_same] at hu
      · simp only [Function.update_noteq htu] at hu
        exact results u w hu
  | compute t hpc =>
    have hlock : s.lock = some t := owner t (by rw [hpc]; rfl)
    have hentry : s.entry = none := midCompute t (Or.inl hpc)
    have hzero : s.computes = 0 := by
      rcases Nat.lt_or_ge s.computes 1 with h | h
      · omega
      · exfalso
        have hone : s.computes = 1 := by omega
        rcases oneWriter hone with ⟨u, hu⟩ | h2
        · have hlocku : s.lock = some u := owner u (by rw [hu]; rfl)
          rw [hlock] at hlocku
          have htu : t = u := Option.some.inj hlocku
          rw [← htu] at hu
          rw [hpc] at hu
          exact absurd hu (by simp)
        · rw [hentry] at h2
          exact absurd h2 (by simp)
    constructor
    · intro u hu
      by_cases htu : u = t
      · subst htu; exact hlock
      · simp only [Function.update_noteq htu] at hu
        exact owner u hu
    · simp [hzero]
    · intro u hu
      exact hentry
    · intro w hw
      have := initPersist w hw
      rw [hentry] at this
      exact absurd this (by simp)
    · intro v hv
      rw [hentry] at hv
      exact absurd hv (by simp)
    · intro h
      left
      exact ⟨t, by simp [Function.update_same]⟩
    · intro u w hu
      by_cases htu : u = t
      · subst htu
        simp [Function.update_same] at hu
      · simp only [Function.update_noteq htu] at hu
        exact results u w hu
  | store t hpc =>
    have hlock : s.lock = some t := owner t (by rw [hpc]; rfl)
    have hentry : s.entry = none := midCompute t (Or.inr hpc)
    have hc0 : c0 = none := by
      cases hc : c0 with
      | none => rfl
      | some w =>
        have := initPersist w hc
        rw [hentry] at this
        exact absurd this (by simp)
    constructor
    · intro u hu
      by_cases htu : u = t
      · subst htu; exact hlock
      · simp only [Function.update_noteq htu] at hu
        exact owner u hu
    · exact computeBound
    · intro u hu
      by_cases htu : u = t
      · subst htu
        simp [Function.update_same] at hu
      · simp only [Function.update_noteq htu] at hu
        exfalso
        have hlocku : s.lock = some u := owner u (by rcases hu with h | h <;> rw [h] <;> rfl)
        rw [hlock] at hlocku
        exact htu (Option.some.inj hlocku).symm
    · intro w hw
      rw [hc0] at hw
      exact absurd hw (by simp)
    · intro v hv
      simp at hv
      simp [hc0, ← hv]
    · intro h
      right
      rfl
    · intro u w hu
      by_cases htu : u = t
      · subst htu
        simp only [Function.update_same] at hu
        rcases hu with h | h
        · injection h with h4
          subst h4
          simp [hc0]
        · exact absurd h (by simp)
      · simp only [Function.update_noteq htu] at hu
        exact results u w hu
  | release t v hpc =>
    have hlock : s.lock = some t := owner t (by rw [hpc]; rfl)
    constructor
    · intro u hu
      by_cases htu : u = t
      · subst htu
        simp [Function.update_same, KPc.isActive] at hu
      · simp only [Function.update_noteq htu] at hu
        exfalso
        have hlocku : s.lock = some u := owner u hu
        rw [hlock] at hlocku
        exact htu (Option.some.inj hlocku).symm
    · exact computeBound
    · intro u hu
      by_cases htu : u = t
      · subst htu
        simp [Function.update_same] at hu
      · simp only [Function.update_noteq htu] at hu
        exact midCompute u hu
    · exact initPersist
    · exact entryVals
    · intro h
      rcases oneWriter h with ⟨u, hu⟩ | h2
      · left
        refine ⟨u, ?_⟩
        by_cases htu : u = t
        · subst htu
          rw [hpc] at hu
          exact absurd hu (by simp)
        · simpa [Function.update_noteq htu] using hu
      · right; exact h2
    · intro u w hu
      by_cases htu : u = t
      · subst htu
        simp only [Function.update_same] at hu
        rcases hu with h | h
        · exact absurd h (by simp)
        · injection h with h4
          subst h4
          exact results _ _ (Or.inl hpc)
      · simp only [Function.update_noteq htu] at hu
        exact results u w hu

theorem kinv_reach (n : Nat) (v0 : AttrMap) (c0 : Option AttrMap) (s : KState n)
    (h : KReach n v0 c0 s) : KInv n v0 c0 s := by
  induction h with
  | refl => exact kinv_init n v0 c0
  | tail _hsteps hstep ih => exact kinv_step n v0 c0 _ _ hstep ih

theorem oinv_init (bits : String) (e0 : Option Blob) : OInv bits (OState.init e0) := by
  constructor
  · intro t ht
    rcases ht with h | h | ⟨b, h⟩ <;> simp [OState.init] at h
  · simp [OState.init]
  · intro h
    simp [OState.init] at h

theorem oinv_step (bits : String) (s : OState) (t : Fin 2)
    (hinv : OInv bits s) : OInv bits (ostep sharedLock bits s t) := by
  obtain ⟨held, jobsBound, jobAccounted⟩ := hinv
  unfold ostep
  cases hpc : s.pc t with
  | start =>
    by_cases hm : s.mux (sharedLock t) = true
    · rw [if_pos hm]
      exact ⟨held, jobsBound, jobAccounted⟩
    · rw [if_neg hm]
      have hm0 : ¬ s.mux 0 = true := by simpa [sharedLock] using hm
      constructor
      · intro u hu
        constructor
        · simp [sharedLock, Function.update_same]
        · intro w hw
          by_cases htw : w = t
          · by_cases htu : u = t
            · rw [htw, htu]
            · exfalso
              have hu2 : s.pc u = .locked ∨ s.pc u = .running ∨ ∃ h, s.pc u = .finished h := by
                simpa only [Function.update_noteq htu] using hu
              exact hm0 (held u hu2).1
          · exfalso
            have hw2 : s.pc w = .locked ∨ s.pc w = .running ∨ ∃ h, s.pc w = .finished h := by
              simpa only [Function.update_noteq htw] using hw
            exact hm0 (held w hw2).1
      · exact jobsBound
      · intro h
        rcases jobAccounted h with ⟨u, hu⟩ | h2
        · left
          refine ⟨u, ?_⟩
          by_cases htu : u = t
          · subst htu
            rw [hpc] at hu
            exact absurd hu (by simp)
          · simpa only [Function.update_noteq htu] using hu
        · right; exact h2
  | locked =>
    cases hentry : s.entry with
    | some b =>
      have ht0 := held t (Or.inl hpc)
      constructor
      · intro u hu
        refine ⟨ht0.1, ?_⟩
        intro w hw
        have hu2 : s.pc u = .locked ∨ s.pc u = .running ∨ ∃ h, s.pc u = .finished h := by
          by_cases htu : u = t
          · subst htu; exact Or.inl hpc
          · simpa only [Function.update_noteq htu] using hu
        have hw2 : s.pc w = .locked ∨ s.pc w = .running ∨ ∃ h, s.pc w = .finished h := by
          by_cases htw : w = t
          · subst htw; exact Or.inl hpc
          · simpa only [Function.update_noteq htw] using hw
        rw [ht0.2 w hw2, ht0.2 u hu2]
      · exact jobsBound
      · intro h
        rcases jobAccounted h with ⟨u, hu⟩ | h2
        · left
          refine ⟨u, ?_⟩
          by_cases htu : u = t
          · subst htu
            rw [hpc] at hu
            exact absurd hu (by simp)
          · simpa only [Function.update_noteq htu] using hu
        · right
          simp
    | none =>
      have ht0 := held t (Or.inl hpc)
      constructor
      · intro u hu
        refine ⟨ht0.1, ?_⟩
        intro w hw
        have hu2 : s.pc u = .locked ∨ s.pc u = .running ∨ ∃ h, s.pc u = .finished h := by
          by_cases htu : u = t
          · subst htu; exact Or.inl hpc
          · simpa only [Function.update_noteq htu] using hu
        have hw2 : s.pc w = .locked ∨ s.pc w = .running ∨ ∃ h, s.pc w = .finished h := by
          by_cases htw : w = t
          · subst htw; exact Or.inl hpc
          · simpa only [Function.update_noteq htw] using hw
        rw [ht0.2 w hw2, ht0.2 u hu2]
      · have hz : s.jobs = 0 := by
          rcases Nat.lt_or_ge s.jobs 1 with h | h
          · omega
          · exfalso
            have hone : s.jobs = 1 := by omega
            rcases jobAccounted hone with ⟨u, hu⟩ | h2
            · have := ht0.2 u (Or.inr (Or.inl hu))
              subst this
              rw [hpc] at hu
              exact absurd hu (by simp)
            · rw [hentry] at h2
              simp at h2
        simp [hz]
      · intro h
        left
        exact ⟨t, by simp [Function.update_same]⟩
  | running =>
    have ht0 := held t (Or.inr (Or.inl hpc))
    constructor
    · intro u hu
      refine ⟨ht0.1, ?_⟩
      intro w hw
      have hu2 : s.pc u = .locked ∨ s.pc u = .running ∨ ∃ h, s.pc u = .finished h := by
        by_cases htu : u = t
        · subst htu; exact Or.inr (Or.inl hpc)
        · simpa only [Function.update_noteq htu] using hu
      have hw2 : s.pc w = .locked ∨ s.pc w = .running ∨ ∃ h, s.pc w = .finished h := by
        by_cases htw : w = t
        · subst htw; exact Or.inr (Or.inl hpc)
        · simpa only [Function.update_noteq htw] using hw
      rw [ht0.2 w hw2, ht0.2 u hu2]
    · exact jobsBound
    · intro h
      right
      simp
  | finished b =>
    have ht0 := held t (Or.inr (Or.inr ⟨b, hpc⟩))
    constructor
    · intro u hu
      exfalso
      by_cases htu : u = t
      · subst htu
        simp only [Function.update_same] at hu
        rcases hu with h | h | ⟨b2, h⟩ <;> simp_all
      · have hu2 : s.pc u = .locked ∨ s.pc u = .running ∨ ∃ h, s.pc u = .finished h := by
          simpa only [Function.update_noteq htu] using hu
        exact htu (ht0.2 u hu2)
    · exact jobsBound
    · intro h
      rcases jobAccounted h with ⟨u, hu⟩ | h2
      · left
        refine ⟨u, ?_⟩
        by_cases htu : u = t
        · subst htu
          rw [hpc] at hu
          exact absurd hu (by simp)
        · simpa only [Function.update_noteq htu] using hu
      · right; exact h2
  | done b =>
    exact ⟨held, jobsBound, jobAccounted⟩

theorem oinv_run (bits : String) (sched : List (Fin 2)) (s : OState)
    (hinv : OInv bits s) : OInv bits (orun sharedLock bits sched s) := by
  induction sched generalizing s with
  | nil => exact hinv
  | cons t rest ih => exact ih _ (oinv_step bits s t hinv)

theorem kTrace5_reach : KReach 2 amap0 none kTrace5 := by
  have h1 : KStep 2 amap0 kTrace0 kTrace1 := KStep.acquire kTrace0 0 rfl rfl
  have h2 : KStep 2 amap0 kTrace1 kTrace2 := KStep.checkMiss kTrace1 0 (by decide) rfl
  have h3 : KStep 2 amap0 kTrace2 kTrace3 := KStep.compute kTrace2 0 (by decide)
  have h4 : KStep 2 amap0 kTrace3 kTrace4 := KStep.store kTrace3 0 (by decide)
  have h5 : KStep 2 amap0 kTrace4 kTrace5 := KStep.release kTrace4 0 amap0 (by decide)
  exact Relation.ReflTransGen.tail (Relation.ReflTransGen.tail (Relation.ReflTransGen.tail
    (Relation.ReflTransGen.tail (Relation.ReflTransGen.tail Relation.ReflTransGen.refl
      h1) h2) h3) h4) h5

/-- Claim C1: for every cache key, when N callers concurrently invoke the
cached-listing computation with the same key and the same initial cache
state, the compute closure (the pod-creating job) runs at most once: each
caller acquires the per-key lock, re-checks the cache under the lock and
computes only if the entry is still absent, and every caller that finishes
observes the same result — the initially cached value if there was one,
otherwise the computed value `v0`. Proved over every interleaving of the
per-key protocol of `cachedAttributes`. -/
theorem c1_compute_at_most_once (n : Nat) (v0 : AttrMap) (c0 : Option AttrMap)
    (s : KState n) (h : KReach n v0 c0 s) :
    s.computes ≤ 1 ∧
      ∀ t v, s.pc t = .finished v ∨ s.pc t = .released v → v = c0.getD v0 := by
  have hinv := kinv_reach n v0 c0 s h
  exact ⟨hinv.computeBound, hinv.results⟩

theorem c1_compute_at_most_once_witness :
    kTrace5.computes ≤ 1 ∧
      ∀ t v, kTrace5.pc t = .finished v ∨ kTrace5.pc t = .released v →
        v = (none : Option AttrMap).getD amap0 :=
  c1_compute_at_most_once 2 amap0 none kTrace5 kTrace5_reach

/-- Claim C4: whenever termination of a still-running managed process is
requested (by `Terminate()` or by context cancellation), the watcher first
attempts a SIGTERM to the process group; only if that delivery succeeded
and the process has not exited within the five-second grace period is a
SIGKILL sent; the signal-kind sequence is exactly SIGTERM, or SIGTERM then
SIGKILL, in that order, and a SIGKILL is never attempted without a
preceding successful SIGTERM delivery. -/
theorem c4_signal_escalation (env : SigEnv) (htr : env.trigger ≠ .waitDone) :
    (watcherTrace env).head? = some (.sigterm, env.sigtermOk) ∧
    (env.sigtermOk = true → env.exitedBeforeGrace = false →
      (watcherTrace env).map Prod.fst = [.sigterm, .sigkill]) ∧
    (env.sigtermOk = true → env.exitedBeforeGrace = true →
      (watcherTrace env).map Prod.fst = [.sigterm]) ∧
    (env.sigtermOk = false → (watcherTrace env).map Prod.fst = [.sigterm]) ∧
    (∀ b, (Sig.sigkill, b) ∈ watcherTrace env →
      env.sigtermOk = true ∧ (watcherTrace env).head? = some (.sigterm, true)) := by
  obtain ⟨tr, st, eg, sk⟩ := env
  cases tr with
  | waitDone => exact absurd rfl htr
  | terminate => cases st <;> cases eg <;> cases sk <;> simp [watcherTrace]
  | ctxCancel => cases st <;> cases eg <;> cases sk <;> simp [watcherTrace]

theorem c4_signal_escalation_witness :
    (watcherTrace ⟨.terminate, true, false, true⟩).head? = some (.sigterm, true) ∧
    (true = true → false = false →
      (watcherTrace ⟨.terminate, true, false, true⟩).map Prod.fst = [.sigterm, .sigkill]) ∧
    (true = true → false = true →
      (watcherTrace ⟨.terminate, true, false, true⟩).map Prod.fst = [.sigterm]) ∧
    (true = false → (watcherTrace ⟨.terminate, true, false, true⟩).map Prod.fst = [.sigterm]) ∧
    (∀ b, (Sig.sigkill, b) ∈ watcherTrace ⟨.terminate, true, false, true⟩ →
      true = true ∧ (watcherTrace ⟨.terminate, true, false, true⟩).head? = some (.sigterm, true)) :=
  c4_signal_escalation ⟨.terminate, true, false, true⟩ (by decide)

theorem waitCalls_done (env : CmdEnv) (k : Nat) (s : CmdState) (hd : s.waitDone = true) :
    waitCalls env k s = (List.replicate k s.waitResult, s) := by
  induction k with
  | zero => simp [waitCalls]
  | succ k ih => simp [waitCalls, waitCmd, hd, ih, List.replicate_succ]

/-- Claim C5: for a started managed process, `Wait()` is idempotent: over
any number k ≥ 1 of (serialized, per sync.Once) `Wait()` calls starting
from a state in which the wait gate is untouched, the underlying
`exec.Cmd#Wait` runs exactly once and every call returns the identical
cached exit result. -/
theorem c5_wait_idempotent (env : CmdEnv) (s0 : CmdState) (k : Nat)
    (hfresh : s0.waitDone = false) (hw : s0.underlyingWaits = 0) (hk : 1 ≤ k) :
    (waitCalls env k s0).2.underlyingWaits = 1 ∧
      ∀ r ∈ (waitCalls env k s0).1, r = env.waitErr := by
  cases k with
  | zero => omega
  | succ k =>
    have hstep : waitCmd env s0 =
        (env.waitErr,
          { s0 with waitDone := true, waitResult := env.waitErr
                    underlyingWaits := s0.underlyingWaits + 1 }) := by
      simp [waitCmd, hfresh]
    have hrest := waitCalls_done env k
      { s0 with waitDone := true, waitResult := env.waitErr
                underlyingWaits := s0.underlyingWaits + 1 } rfl
    constructor
    · simp only [waitCalls, hstep, hrest]
      omega
    · intro r hr
      simp only [waitCalls, hstep, hrest] at hr
      rcases List.mem_cons.mp hr with h | h
      · exact h
      · exact List.eq_of_mem_replicate h

theorem c5_wait_idempotent_witness :
    (waitCalls ⟨none, true, 7, some (.errMsg "exit status 1")⟩ 3 CmdState.fresh).2.underlyingWaits = 1 ∧
      ∀ r ∈ (waitCalls ⟨none, true, 7, some (.errMsg "exit status 1")⟩ 3 CmdState.fresh).1,
        r = (⟨none, true, 7, some (.errMsg "exit status 1")⟩ : CmdEnv).waitErr :=
  c5_wait_idempotent ⟨none, true, 7, some (.errMsg "exit status 1")⟩ CmdState.fresh 3 rfl rfl
    (by decide)

/-- Claim C10: `Run()` is exactly the composition of `Start()` followed by
`Wait()`: when `Start` returns an error, `Run` returns that error without
invoking the underlying wait; otherwise `Run` returns `Wait`'s result. -/
theorem c10_run_is_start_then_wait (env : CmdEnv) (s : CmdState) :
    runCmd env s = runCmdSpec env s ∧
    (∀ e, env.startErr = some e →
      runCmd env s = (some e, s) ∧
        (runCmd env s).2.underlyingWaits = s.underlyingWaits) ∧
    (env.startErr = none → runCmd env s = waitCmd env (startCmd env s).2) := by
  cases h : env.startErr <;> simp [runCmd, runCmdSpec, startCmd, h]

theorem c10_run_is_start_then_wait_witness :
    runCmd ⟨some (.errMsg "fork failed"), true, 5, none⟩ CmdState.fresh =
      runCmdSpec ⟨some (.errMsg "fork failed"), true, 5, none⟩ CmdState.fresh ∧
    runCmd ⟨some (.errMsg "fork failed"), true, 5, none⟩ CmdState.fresh =
      (some (.errMsg "fork failed"), CmdState.fresh) ∧
    (runCmd ⟨some (.errMsg "fork failed"), true, 5, none⟩ CmdState.fresh).2.underlyingWaits =
      CmdState.fresh.underlyingWaits := by
  have h := c10_run_is_start_then_wait ⟨some (.errMsg "fork failed"), true, 5, none⟩ CmdState.fresh
  exact ⟨h.1, (h.2.1 (.errMsg "fork failed") rfl).1, (h.2.1 (.errMsg "fork failed") rfl).2⟩

/-- Claim C2: for every ephemeral-job run (`cachedAttributes` or
`cachedContent`) in which a pod is successfully created (a cache miss
followed by a successful `Create`), the pod is deleted exactly once before
the call returns, on every exit path — the deferred `Delete` runs whatever
the watch, log-retrieval, parse or cache-write outcome — and when no
terminal event arrives within the timeout window the call returns the
timeout error while the pod is still deleted exactly once. -/
theorem c2_job_deleted_exactly_once (cli : Pvc) (env : RunEnv) (c : Cache) (pid : String)
    (hcreate : env.createResult = .ok pid) :
    (cacheGet c cli.listKey = none →
      (cachedAttributes cli env c).podsCreated = 1 ∧
      (cachedAttributes cli env c).podsDeleted = 1 ∧
      (waitForPod pid env.watchErr env.stream = some (.timedOut pid) →
        (cachedAttributes cli env c).err = some (.timedOut pid))) ∧
    (cacheGet c cli.contentKey = none →
      (cachedContent cli env c).podsCreated = 1 ∧
      (cachedContent cli env c).podsDeleted = 1 ∧
      (waitForPod pid env.watchErr env.stream = some (.timedOut pid) →
        (cachedContent cli env c).err = some (.timedOut pid))) := by
  constructor
  · intro hmiss
    refine ⟨?_, ?_, ?_⟩
    · simp only [cachedAttributes, hmiss, hcreate]
    · simp only [cachedAttributes, hmiss, hcreate]
      repeat first | rfl | simp [AttrsRun.pre] | split
    · intro hw
      simp only [cachedAttributes, hmiss, hcreate, hw]
      simp [AttrsRun.pre]
  · intro hmiss
    refine ⟨?_, ?_, ?_⟩
    · simp only [cachedContent, hmiss, hcreate]
    · simp only [cachedContent, hmiss, hcreate]
      repeat first | rfl | simp [ContentRun.pre] | split
    · intro hw
      simp only [cachedContent, hmiss, hcreate, hw]
      simp [ContentRun.pre]

theorem c2_job_deleted_exactly_once_witness :
    (cachedAttributes cli0 { envOk with stream := [.timeout] } []).podsDeleted = 1 ∧
    (cachedContent cli0 { envOk with stream := [.timeout] } []).podsDeleted = 1 ∧
    (cachedAttributes cli0 { envOk with stream := [.timeout] } []).err =
      some (.timedOut "wash1") ∧
    (cachedContent cli0 { envOk with stream := [.timeout] } []).err =
      some (.timedOut "wash1") := by
  have h := c2_job_deleted_exactly_once cli0 { envOk with stream := [.timeout] } [] "wash1" rfl
  exact ⟨(h.1 rfl).2.1, (h.2 rfl).2.1, (h.1 rfl).2.2 rfl, (h.2 rfl).2.2 rfl⟩

/-- Claim C3, evaluated at the failing input: with a pod that succeeds
(`waitForPod` returns nil) but whose last per-directory cache write fails,
`cachedAttributes` returns the parsed attributes together with the
cache-write error — the `SetAny` loop reassigns `err` and line 225 returns
it — so a successfully completed job does not produce an error-free
return, against the claim and the spec's rule that failed cache writes
are logged, not propagated. The Failed half of the claim does hold and is
evaluated here too: a Failed pod yields an error whose message is exactly
the captured log bytes, on both the listing and the content path. -/
theorem c3_succeeded_job_returns_cache_write_error :
    waitForPod "wash1" envSetFail.watchErr envSetFail.stream = none ∧
    (cachedAttributes cli0 envSetFail []).attrs = amap0 ∧
    (cachedAttributes cli0 envSetFail []).err = some (.errMsg "cache write failed") ∧
    (cachedAttributes cli0 envOk []).err = none ∧
    (cachedAttributes cli0 envPodFail []).err = some (.errMsg "remote diagnostic") ∧
    (cachedContent cli0 envPodFail []).err = some (.errMsg "remote diagnostic") := by
  refine ⟨rfl, ?_, ?_, ?_, ?_, ?_⟩ <;> decide

/-- Claim C6, counterexample: a stream failure that is not an `ExitError`
— here a connection reset — is not surfaced as a hard error when the
exit-code callback is invoked: `ExitCodeCB` returns `(0, nil)`, the error
reaching only the output-stream closures. -/
theorem c6_stream_error_not_in_callback :
    (execFinish (some (.other "connection reset"))).cbErr = none ∧
    (execFinish (some (.other "connection reset"))).cbExit = 0 ∧
    (execFinish (some (.other "connection reset"))).closeErr =
      some (.other "connection reset") := by
  decide

/-- Claim C6, amended: a non-zero remote exit status is captured and
surfaced through the lazily invoked exit-code callback (with a nil
error), not reported as a connection error; any other stream failure is
surfaced by closing the output streams with that error, while the
exit-code callback still returns exit code 0 and a nil error. -/
theorem c6_exit_status_via_callback (res : Option StreamErr) :
    (∀ status, res = some (.exitError status) →
      execFinish res = { closeErr := none, cbExit := status, cbErr := none }) ∧
    (∀ m, res = some (.other m) →
      execFinish res = { closeErr := some (.other m), cbExit := 0, cbErr := none }) ∧
    (res = none → execFinish res = { closeErr := none, cbExit := 0, cbErr := none }) := by
  refine ⟨?_, ?_, ?_⟩
  · rintro status rfl
    rfl
  · rintro m rfl
    rfl
  · rintro rfl
    rfl

theorem c6_exit_status_via_callback_witness :
    execFinish (some (.exitError 3)) = { closeErr := none, cbExit := 3, cbErr := none } :=
  (c6_exit_status_via_callback (some (.exitError 3))).1 3 rfl

/-- Claim C7, counterexample: two concurrent `Open`s of the same file that
went through two distinct `pvc` entry values (each `Find`/`List` builds a
fresh value with a fresh `sync.Mutex`) do not block each other: on a cold
cache, the schedule thread 0, thread 0, thread 1, thread 1 creates two
pods for the one shared content key — the second job starts while the
first is in flight, because no lock is tied to the content key itself. -/
theorem c7_distinct_entries_race :
    (orun ownLock "filedata" [0, 0, 1, 1] (OState.init none)).jobs = 2 := by
  decide

/-- Claim C7, amended: the serialization `Open` provides is per entry
value, not per content key: two concurrent reads that go through the same
`pvc` value are serialized by that entry's mutex — under every schedule at
most one pod job is created and the two callers are never both mid-job —
while reads through distinct entry values for the same file can race (see
the counterexample). -/
theorem c7_same_entry_serializes (bits : String) (e0 : Option Blob) (sched : List (Fin 2)) :
    (orun sharedLock bits sched (OState.init e0)).jobs ≤ 1 ∧
    ¬((orun sharedLock bits sched (OState.init e0)).pc 0 = .running ∧
      (orun sharedLock bits sched (OState.init e0)).pc 1 = .running) := by
  have hinv := oinv_run bits sched (OState.init e0) (oinv_init bits e0)
  refine ⟨hinv.jobsBound, ?_⟩
  rintro ⟨h0, h1⟩
  have h01 := (hinv.held 0 (Or.inr (Or.inl h0))).2 1 (Or.inr (Or.inl h1))
  exact absurd h01 (by decide)

theorem c7_same_entry_serializes_witness :
    (orun sharedLock "filedata" [0, 0, 1, 1] (OState.init none)).jobs ≤ 1 ∧
    ¬((orun sharedLock "filedata" [0, 0, 1, 1] (OState.init none)).pc 0 = .running ∧
      (orun sharedLock "filedata" [0, 0, 1, 1] (OState.init none)).pc 1 = .running) :=
  c7_same_entry_serializes "filedata" none [0, 0, 1, 1]

/-- Claim C8, counterexample: a stored listing entry that fails to
gob-decode is not treated as a cache miss: at a concrete input the decode
failure is returned as the operation's error and no pod job is created,
while the same environment with the entry absent does compute (one pod,
no error). -/
theorem c8_decode_error_returned :
    (cachedAttributes cli0 envOk cacheCorrupt).err = some .decodeError ∧
    (cachedAttributes cli0 envOk cacheCorrupt).podsCreated = 0 ∧
    (cachedAttributes cli0 envOk []).err = none ∧
    (cachedAttributes cli0 envOk []).podsCreated = 1 := by
  decide

/-- Claim C8, amended: a stored entry under the listing key whose gob
decode fails makes `cachedAttributes` return the decode failure as the
operation's error, with a nil attribute map, without proceeding to the
computation; only an absent entry triggers the pod job. -/
theorem c8_decode_failure_propagates (cli : Pvc) (env : RunEnv) (c : Cache) (b : Blob)
    (hb : cacheGet c cli.listKey = some b) (hnd : ∀ m, b ≠ .attrs m) :
    (cachedAttributes cli env c).err = some .decodeError ∧
    (cachedAttributes cli env c).attrs = [] ∧
    (cachedAttributes cli env c).podsCreated = 0 := by
  unfold cachedAttributes
  rw [hb]
  cases b with
  | attrs m => exact absurd rfl (hnd m)
  | raw bits => exact ⟨rfl, rfl, rfl⟩
  | corrupt => exact ⟨rfl, rfl, rfl⟩

theorem c8_decode_failure_propagates_witness :
    (cachedAttributes cli0 envOk cacheCorrupt).err = some .decodeError ∧
    (cachedAttributes cli0 envOk cacheCorrupt).attrs = [] ∧
    (cachedAttributes cli0 envOk cacheCorrupt).podsCreated = 0 :=
  c8_decode_failure_propagates cli0 envOk cacheCorrupt .corrupt rfl (fun _ h => nomatch h)

theorem cachedAttributes_self (cli : Pvc) (env : RunEnv) (c : Cache) :
    (cachedAttributes cli env c).self = cli := by
  unfold cachedAttributes
  repeat first | rfl | split
  all_goals dsimp only
  all_goals repeat first | rfl | split

theorem cachedContent_self (cli : Pvc) (env : RunEnv) (c : Cache) :
    (cachedContent cli env c).self = cli := by
  unfold cachedContent
  repeat first | rfl | split
  all_goals dsimp only
  all_goals repeat first | rfl | split

theorem path_extension_ne (cli : Pvc) (nm : String) (a : Attributes) :
    ({ cli with path := cli.path ++ "/" ++ nm, attr := a } : Pvc) ≠ cli := by
  intro h
  have hp : cli.path ++ "/" ++ nm = cli.path := congrArg Pvc.path h
  have hl : (cli.path ++ "/" ++ nm).length = cli.path.length := congrArg String.length hp
  rw [String.length_append, String.length_append] at hl
  have hone : ("/" : String).length = 1 := rfl
  rw [hone] at hl
  omega

/-- Claim C9: virtual volume entries are not mutated after construction:
`Find` and `List` produce fresh `pvc` values for child paths — each
child's fields are exactly the ones placed by the constructor call
(parent identity, path extended by the child name, the child's
attributes) and the child is a different value from the parent, not an
update of it — while `cachedAttributes` and `cachedContent` leave every
field of the receiver entry unchanged (`self` is the receiver after the
call; the single receiver-routed assignment, `cli.updated = time.Now()`,
promotes to the embedded shared resourcetype and is recorded in
`rtUpdated`). -/
theorem c9_entries_immutable (cli : Pvc) (env : RunEnv) (c : Cache) (nm : String) :
    (cachedAttributes cli env c).self = cli ∧
    (cachedContent cli env c).self = cli ∧
    (∀ p b, cli.find env c nm = .node p b →
      p = { rtName := cli.rtName, name := cli.name, ns := cli.ns,
            path := cli.path ++ "/" ++ nm, attr := p.attr } ∧ p ≠ cli) ∧
    (∀ l, cli.list env c = .ok l →
      ∀ pb ∈ l, pb.1.rtName = cli.rtName ∧ pb.1.name = cli.name ∧
        pb.1.ns = cli.ns ∧ pb.1 ≠ cli) := by
  refine ⟨cachedAttributes_self cli env c, cachedContent_self cli env c, ?_, ?_⟩
  · intro p b h
    simp only [Pvc.find] at h
    cases herr : (cachedAttributes cli env c).err with
    | some e =>
      rw [herr] at h
      simp at h
    | none =>
      rw [herr] at h
      cases hlk : (cachedAttributes cli env c).attrs.lookup nm with
      | none =>
        rw [hlk] at h
        simp at h
      | some attr =>
        rw [hlk] at h
        simp only [FindResult.node.injEq] at h
        obtain ⟨hp, hb⟩ := h
        subst hp
        exact ⟨rfl, path_extension_ne cli nm attr⟩
  · intro l hl pb hpb
    simp only [Pvc.list] at hl
    cases herr : (cachedAttributes cli env c).err with
    | some e =>
      rw [herr] at hl
      simp at hl
    | none =>
      rw [herr] at hl
      simp only [Except.ok.injEq] at hl
      subst hl
      rcases List.mem_map.mp hpb with ⟨ea, hea, hpb2⟩
      subst hpb2
      exact ⟨rfl, rfl, rfl, path_extension_ne cli ea.1 ea.2⟩

theorem c9_entries_immutable_witness :
    ({ cli0 with path := cli0.path ++ "/" ++ "logs", attr := dirAttr } : Pvc) ≠ cli0 ∧
    (cachedAttributes cli0 envOk []).self = cli0 ∧
    (cachedContent cli0 envOk []).self = cli0 := by
  have h := c9_entries_immutable cli0 envOk [] "logs"
  have hf : cli0.find envOk [] "logs" =
      .node { cli0 with path := cli0.path ++ "/" ++ "logs", attr := dirAttr } true := by
    decide
  exact ⟨(h.2.2.1 _ true hf).2, h.1, h.2.1⟩

end Wash
